import Mathlib

/-!
Verification of the two-proportion power / sample-size utility in
`src/sample_size_determination.py`.

Modelling choices (shallow embedding over the reals):

* Python/NumPy floating-point numbers are modelled as real numbers; the
  floating-point artifacts `inf`/`nan` have no counterpart, so a degenerate
  operation (`1/0`, `sqrt` of a negative number) takes the Lean junk value
  (`x / 0 = 0`, `Real.sqrt x = 0` for `x < 0`).  NumPy emits `inf`/`nan` at
  those points; both semantics agree that a numeric value (never an
  exception) is produced, which is what the error-handling claims turn on.
* `scipy.stats.norm(loc, scale).cdf` / `.ppf` are modelled through the
  standard normal cumulative distribution function `Phi`, defined as a
  genuine Gaussian integral, with `PhiInv` its (classical) inverse.
* `np.ceil` returns a float whose value is the integer ceiling; it is
  modelled as `(Int.ceil x : ℝ)`.
* The `plot` branch of `power` only draws a figure; its numeric
  sub-computations are kept in the embedding (as dead `let` bindings) so the
  structure of the source is preserved, and the branch returns the same
  numeric value, exactly as in the source where `return (1 - beta)` is
  reached on both paths.
-/

open MeasureTheory intervalIntegral Set Filter Topology

noncomputable section

/-- The integrand `exp (-t^2/2)` of the Gaussian integral: the standard
normal density without its `1/sqrt(2*pi)` normalizing constant. -/
def gauss (t : ℝ) : ℝ := Real.exp (-t ^ 2 / 2)

/-- Standard normal cumulative distribution function; models
`scipy.stats.norm.cdf` (location 0, scale 1). -/
def Phi (x : ℝ) : ℝ := (∫ t in Iic x, gauss t) / Real.sqrt (2 * Real.pi)

/-- Standard normal quantile function; models `scipy.stats.norm.ppf`
(location 0, scale 1).  Defined as the classical inverse of `Phi`; on
`(0, 1)` it is a genuine two-sided inverse (see `Phi_PhiInv`, `PhiInv_Phi`). -/
def PhiInv (p : ℝ) : ℝ := Function.invFun Phi p

/-- `scipy.stats.norm(loc, scale).cdf x`. -/
def normCdf (loc scale x : ℝ) : ℝ := Phi ((x - loc) / scale)

/-- `scipy.stats.norm(loc, scale).ppf p`. -/
def normPpf (loc scale p : ℝ) : ℝ := loc + scale * PhiInv p

/-- Embedding of `power(p_null, p_alt, n, alpha, plot)` from
`src/sample_size_determination.py` (lines 25-82), translated statement by
statement.  The source computes `se_null`, the critical value `p_crit` as the
`(1-alpha)` quantile of `norm(0, se_null)`, `se_alt`, and
`beta = norm(p_alt - p_null, se_alt).cdf p_crit`, and returns `1 - beta` on
both the plotting and the non-plotting path; the plotting path additionally
computes bounds for the figure, which do not feed into the returned value. -/
def power (p_null p_alt n alpha : ℝ) (plot : Bool) : ℝ :=
  let se_null := Real.sqrt (1 / n * (2 * p_null * (1 - p_null)))
  let p_crit := normPpf 0 se_null (1 - alpha)
  let se_alt := Real.sqrt (1 / n * (p_null * (1 - p_null) + p_alt * (1 - p_alt)))
  let beta := normCdf (p_alt - p_null) se_alt p_crit
  if plot then
    let low_bound := normPpf 0 se_null (1 / 100)
    let high_bound := normPpf (p_alt - p_null) se_alt (99 / 100)
    1 - beta
  else
    1 - beta

/-- Embedding of `experiment_size(p_null, p_alt, alpha, beta)` from
`src/sample_size_determination.py` (lines 97-120), translated statement by
statement: z-scores from the standard normal quantile, per-observation
standard deviations, the closed-form solution for `n`, and `np.ceil`. -/
def experiment_size (p_null p_alt alpha beta : ℝ) : ℝ :=
  let z_null := normPpf 0 1 (1 - alpha)
  let z_alt := normPpf 0 1 beta
  let sd_null := Real.sqrt (2 * p_null * (1 - p_null))
  let sd_alt := Real.sqrt (p_null * (1 - p_null) + p_alt * (1 - p_alt))
  let p_diff := p_alt - p_null
  let n := ((z_null * sd_null - z_alt * sd_alt) / p_diff) ^ 2
  (Int.ceil n : ℝ)

/-- Truncated Taylor sum of `exp (-u)`: terms up to and including
index `n`. -/
def expP (n : ℕ) (u : ℝ) : ℝ := ∑ k in Finset.range (n + 1), (-u) ^ k / (Nat.factorial k : ℝ)

/-- Truncated Taylor sum of the antiderivative of `gauss`:
`∑ (-1)^k x^(2k+1) / ((2k+1) 2^k k!)` for `k ≤ n`. -/
def gaussP (n : ℕ) (x : ℝ) : ℝ :=
  ∑ k in Finset.range (n + 1),
    (-1) ^ k * x ^ (2 * k + 1) / (((2 * k + 1) * 2 ^ k * Nat.factorial k : ℕ) : ℝ)

end

/-! ### Basic facts about the Gaussian kernel -/

theorem gauss_eq (t : ℝ) : gauss t = Real.exp (-(1 / 2) * t ^ 2) := by
  unfold gauss
  congr 1
  ring

theorem gauss_pos (t : ℝ) : 0 < gauss t := Real.exp_pos _

theorem gauss_even (t : ℝ) : gauss (-t) = gauss t := by
  unfold gauss
  congr 1
  ring

theorem continuous_gauss : Continuous gauss := by
  unfold gauss
  exact Real.continuous_exp.comp (by continuity)

theorem integrable_gauss : MeasureTheory.Integrable gauss := by
  have h : gauss = fun t : ℝ => Real.exp (-(1 / 2) * t ^ 2) := funext gauss_eq
  rw [h]
  exact integrable_exp_neg_mul_sq (by norm_num)

theorem integral_gauss : ∫ t, gauss t = Real.sqrt (2 * Real.pi) := by
  have h : gauss = fun t : ℝ => Real.exp (-(1 / 2) * t ^ 2) := funext gauss_eq
  rw [h, integral_gaussian]
  congr 1
  rw [div_div_eq_mul_div, div_one, mul_comm]

theorem gauss_intervalIntegrable (a b : ℝ) :
    IntervalIntegrable gauss MeasureTheory.volume a b :=
  continuous_gauss.intervalIntegrable a b

theorem sqrt_two_pi_pos : 0 < Real.sqrt (2 * Real.pi) :=
  Real.sqrt_pos.mpr (by positivity)

/-! ### The cumulative distribution function `Phi` -/

theorem integral_Iic_gauss_split (a b : ℝ) :
    ∫ t in Set.Iic b, gauss t = (∫ t in Set.Iic a, gauss t) + ∫ t in a..b, gauss t := by
  have ha : MeasureTheory.IntegrableOn gauss (Set.Iic a) MeasureTheory.volume :=
    integrable_gauss.integrableOn
  have hb : MeasureTheory.IntegrableOn gauss (Set.Iic b) MeasureTheory.volume :=
    integrable_gauss.integrableOn
  have h := integral_Iic_sub_Iic ha hb
  linarith

theorem intervalIntegral_gauss_pos {a b : ℝ} (hab : a < b) :
    0 < ∫ t in a..b, gauss t :=
  intervalIntegral_pos_of_pos (gauss_intervalIntegrable a b) gauss_pos hab

theorem integral_Iic_gauss_pos (x : ℝ) : 0 < ∫ t in Set.Iic x, gauss t := by
  rw [integral_Iic_gauss_split (x - 1) x]
  have h1 : 0 ≤ ∫ t in Set.Iic (x - 1), gauss t :=
    MeasureTheory.setIntegral_nonneg measurableSet_Iic fun t _ => (gauss_pos t).le
  have h2 : 0 < ∫ t in (x - 1)..x, gauss t :=
    intervalIntegral_gauss_pos (by linarith)
  linarith

theorem integral_Iic_add_Ioi_gauss (x : ℝ) :
    (∫ t in Set.Iic x, gauss t) + ∫ t in Set.Ioi x, gauss t = Real.sqrt (2 * Real.pi) := by
  rw [← integral_gauss]
  exact integral_Iic_add_Ioi (integrable_gauss.integrableOn) (integrable_gauss.integrableOn)

theorem integral_Ioi_gauss_pos (x : ℝ) : 0 < ∫ t in Set.Ioi x, gauss t := by
  have hsplit : ∫ t in Set.Ioi x, gauss t
      = (∫ t in Set.Ioc x (x + 1), gauss t) + ∫ t in Set.Ioi (x + 1), gauss t := by
    rw [← MeasureTheory.setIntegral_union (Set.Ioc_disjoint_Ioi le_rfl) measurableSet_Ioi
      (integrable_gauss.integrableOn) (integrable_gauss.integrableOn),
      Set.Ioc_union_Ioi_eq_Ioi (by linarith)]
  have h1 : 0 < ∫ t in Set.Ioc x (x + 1), gauss t := by
    have := intervalIntegral_gauss_pos (show x < x + 1 by linarith)
    rwa [intervalIntegral.integral_of_le (by linarith)] at this
  have h2 : 0 ≤ ∫ t in Set.Ioi (x + 1), gauss t :=
    MeasureTheory.setIntegral_nonneg measurableSet_Ioi fun t _ => (gauss_pos t).le
  linarith

theorem integral_Iic_gauss_lt (x : ℝ) :
    ∫ t in Set.Iic x, gauss t < Real.sqrt (2 * Real.pi) := by
  have h := integral_Iic_add_Ioi_gauss x
  have h2 := integral_Ioi_gauss_pos x
  linarith

theorem Phi_pos (x : ℝ) : 0 < Phi x :=
  div_pos (integral_Iic_gauss_pos x) sqrt_two_pi_pos

theorem Phi_lt_one (x : ℝ) : Phi x < 1 := by
  unfold Phi
  rw [div_lt_one sqrt_two_pi_pos]
  exact integral_Iic_gauss_lt x

theorem Phi_strictMono : StrictMono Phi := by
  intro a b hab
  unfold Phi
  rw [div_lt_div_iff_of_pos_right sqrt_two_pi_pos]
  rw [integral_Iic_gauss_split a b]
  have := intervalIntegral_gauss_pos hab
  linarith

/-! ### Symmetry of `Phi` -/

theorem integral_Iic_gauss_neg (x : ℝ) :
    ∫ t in Set.Iic (-x), gauss t = ∫ t in Set.Ioi x, gauss t := by
  have h := integral_comp_neg_Iic (-x) gauss
  rw [neg_neg] at h
  rw [← h]
  apply MeasureTheory.setIntegral_congr_fun measurableSet_Iic
  intro t _
  exact (gauss_even t).symm

theorem Phi_neg (x : ℝ) : Phi (-x) = 1 - Phi x := by
  unfold Phi
  rw [integral_Iic_gauss_neg]
  have h := integral_Iic_add_Ioi_gauss x
  rw [eq_sub_iff_add_eq, div_add_div_same, add_comm, h, div_self sqrt_two_pi_pos.ne']

theorem Phi_zero : Phi 0 = 1 / 2 := by
  have h := Phi_neg 0
  rw [neg_zero] at h
  linarith

/-! ### Continuity, tail bound and surjectivity of `Phi` -/

theorem Phi_continuous : Continuous Phi := by
  have h : Phi = fun x =>
      ((∫ t in Set.Iic 0, gauss t) + ∫ t in (0:ℝ)..x, gauss t) / Real.sqrt (2 * Real.pi) := by
    funext x
    unfold Phi
    rw [integral_Iic_gauss_split 0 x]
  rw [h]
  exact (continuous_const.add
    (intervalIntegral.continuous_primitive (fun a b => gauss_intervalIntegrable a b) 0)).div_const _

theorem hasDerivAt_neg_gauss (t : ℝ) : HasDerivAt (fun s : ℝ => -gauss s) (t * gauss t) t := by
  unfold gauss
  have hg : HasDerivAt (fun s : ℝ => -s ^ 2 / 2) (-t) t := by
    have h1 : HasDerivAt (fun s : ℝ => s ^ 2) (2 * t) t := by simpa using hasDerivAt_pow 2 t
    have h2 := h1.neg.div_const 2
    convert h2 using 1
    ring
  have h4 := hg.exp.neg
  convert h4 using 1
  ring

theorem tendsto_neg_gauss : Tendsto (fun t : ℝ => -gauss t) atTop (𝓝 0) := by
  have hsq : Tendsto (fun t : ℝ => t ^ 2) atTop atTop := tendsto_pow_atTop two_ne_zero
  have hc : Tendsto (fun t : ℝ => -t ^ 2) atTop atBot := by
    simpa [Function.comp_def] using tendsto_neg_atTop_atBot.comp hsq
  have h1 : Tendsto (fun t : ℝ => -t ^ 2 / 2) atTop atBot :=
    hc.atBot_div_const (by norm_num)
  have h2 : Tendsto (fun t : ℝ => gauss t) atTop (𝓝 0) := by
    have h3 := Real.tendsto_exp_atBot.comp h1
    simpa [Function.comp_def, gauss] using h3
  simpa using h2.neg

theorem integrable_mul_gauss : MeasureTheory.Integrable (fun t : ℝ => t * gauss t) := by
  have h : (fun t : ℝ => t * gauss t) = fun t : ℝ => t * Real.exp (-(1 / 2) * t ^ 2) := by
    funext t
    rw [gauss_eq]
  rw [h]
  exact integrable_mul_exp_neg_mul_sq (by norm_num)

theorem integral_Ioi_mul_gauss (b : ℝ) : ∫ t in Set.Ioi b, t * gauss t = gauss b := by
  have hcont : ContinuousWithinAt (fun s : ℝ => -gauss s) (Set.Ici b) b :=
    continuous_gauss.neg.continuousWithinAt
  have hint : MeasureTheory.IntegrableOn (fun t : ℝ => t * gauss t) (Set.Ioi b)
      MeasureTheory.volume :=
    integrable_mul_gauss.integrableOn
  have h := MeasureTheory.integral_Ioi_of_hasDerivAt_of_tendsto hcont
    (fun x _ => hasDerivAt_neg_gauss x) hint tendsto_neg_gauss
  rw [h]
  ring

theorem integral_Ioi_gauss_le (b : ℝ) (hb : 1 ≤ b) :
    ∫ t in Set.Ioi b, gauss t ≤ gauss b := by
  rw [← integral_Ioi_mul_gauss b]
  apply MeasureTheory.setIntegral_mono_on (integrable_gauss.integrableOn)
    (integrable_mul_gauss.integrableOn) measurableSet_Ioi
  intro t ht
  have h1 : 1 ≤ t := le_trans hb (le_of_lt ht)
  nlinarith [gauss_pos t]

theorem one_lt_sqrt_two_pi : 1 < Real.sqrt (2 * Real.pi) := by
  have h : (1:ℝ) = Real.sqrt 1 := Real.sqrt_one.symm
  rw [h]
  apply Real.sqrt_lt_sqrt (by norm_num)
  nlinarith [Real.pi_gt_three]

theorem exists_Phi_gt (p : ℝ) (hp1 : p < 1) : ∃ b : ℝ, p < Phi b := by
  refine ⟨max 1 (Real.sqrt (-2 * Real.log (1 - p))), ?_⟩
  set u := -2 * Real.log (1 - p) with hu
  set b := max 1 (Real.sqrt u) with hbdef
  have hb1 : (1:ℝ) ≤ b := le_max_left _ _
  have hbu : Real.sqrt u ≤ b := le_max_right _ _
  have hsq : u ≤ b ^ 2 := by
    rcases le_or_lt 0 u with h | h
    · have h2 : Real.sqrt u ^ 2 ≤ b ^ 2 := pow_le_pow_left₀ (Real.sqrt_nonneg u) hbu 2
      rwa [Real.sq_sqrt h] at h2
    · nlinarith
  have hexp : gauss b ≤ 1 - p := by
    unfold gauss
    calc Real.exp (-b ^ 2 / 2) ≤ Real.exp (Real.log (1 - p)) := by
          apply Real.exp_le_exp.mpr
          rw [hu] at hsq
          linarith
      _ = 1 - p := Real.exp_log (by linarith)
  have hIoi : ∫ t in Set.Ioi b, gauss t ≤ 1 - p :=
    le_trans (integral_Ioi_gauss_le b hb1) hexp
  have h1 : 1 - Phi b = (∫ t in Set.Ioi b, gauss t) / Real.sqrt (2 * Real.pi) := by
    unfold Phi
    have h2 := integral_Iic_add_Ioi_gauss b
    rw [eq_div_iff sqrt_two_pi_pos.ne', sub_mul, one_mul,
      div_mul_cancel₀ _ sqrt_two_pi_pos.ne']
    linarith
  have h3 : (∫ t in Set.Ioi b, gauss t) / Real.sqrt (2 * Real.pi) < 1 - p := by
    calc (∫ t in Set.Ioi b, gauss t) / Real.sqrt (2 * Real.pi)
        ≤ (1 - p) / Real.sqrt (2 * Real.pi) := by
          rw [div_le_div_iff_of_pos_right sqrt_two_pi_pos]
          exact hIoi
      _ < 1 - p := div_lt_self (by linarith) one_lt_sqrt_two_pi
  linarith

theorem exists_Phi_lt (p : ℝ) (hp0 : 0 < p) : ∃ a : ℝ, Phi a < p := by
  obtain ⟨b, hb⟩ := exists_Phi_gt (1 - p) (by linarith)
  exact ⟨-b, by rw [Phi_neg]; linarith⟩

theorem Phi_surj (p : ℝ) (hp0 : 0 < p) (hp1 : p < 1) : ∃ x, Phi x = p := by
  obtain ⟨a, ha⟩ := exists_Phi_lt p hp0
  obtain ⟨b, hb⟩ := exists_Phi_gt p hp1
  have hab : a ≤ b := by
    by_contra h
    push_neg at h
    have := Phi_strictMono h
    linarith
  have hIcc : p ∈ Set.Icc (Phi a) (Phi b) := ⟨ha.le, hb.le⟩
  obtain ⟨x, _, hx⟩ := intermediate_value_Icc hab Phi_continuous.continuousOn hIcc
  exact ⟨x, hx⟩

/-! ### The quantile function `PhiInv` -/

theorem Phi_PhiInv {p : ℝ} (hp0 : 0 < p) (hp1 : p < 1) : Phi (PhiInv p) = p :=
  Function.invFun_eq (Phi_surj p hp0 hp1)

theorem PhiInv_Phi (x : ℝ) : PhiInv (Phi x) = x :=
  Function.leftInverse_invFun Phi_strictMono.injective x

theorem lt_PhiInv {x p : ℝ} (hp1 : p < 1) (h : Phi x < p) : x < PhiInv p := by
  have h0 : 0 < p := lt_trans (Phi_pos x) h
  have heq := Phi_PhiInv h0 hp1
  by_contra hcon
  push_neg at hcon
  have h2 : Phi (PhiInv p) ≤ Phi x := Phi_strictMono.monotone hcon
  rw [heq] at h2
  linarith

theorem PhiInv_lt {x p : ℝ} (hp0 : 0 < p) (h : p < Phi x) : PhiInv p < x := by
  have h1 : p < 1 := lt_trans h (Phi_lt_one x)
  have heq := Phi_PhiInv hp0 h1
  by_contra hcon
  push_neg at hcon
  have h2 : Phi x ≤ Phi (PhiInv p) := Phi_strictMono.monotone hcon
  rw [heq] at h2
  linarith

theorem PhiInv_pos {p : ℝ} (hp : 1 / 2 < p) (hp1 : p < 1) : 0 < PhiInv p :=
  lt_PhiInv hp1 (by rw [Phi_zero]; exact hp)

theorem PhiInv_neg_of_lt_half {p : ℝ} (hp0 : 0 < p) (hp : p < 1 / 2) : PhiInv p < 0 :=
  PhiInv_lt hp0 (by rw [Phi_zero]; exact hp)

/-! ### Closed forms for the two embedded functions -/

theorem normPpf_std (p : ℝ) : normPpf 0 1 p = PhiInv p := by
  unfold normPpf
  ring

theorem experiment_size_eq (p_null p_alt alpha beta : ℝ) :
    experiment_size p_null p_alt alpha beta =
      ((Int.ceil (((PhiInv (1 - alpha) * Real.sqrt (2 * p_null * (1 - p_null))
        - PhiInv beta * Real.sqrt (p_null * (1 - p_null) + p_alt * (1 - p_alt)))
        / (p_alt - p_null)) ^ 2) : ℤ) : ℝ) := by
  unfold experiment_size
  rw [normPpf_std, normPpf_std]

theorem power_eq_one_sub (p_null p_alt n alpha : ℝ) (pl : Bool) :
    power p_null p_alt n alpha pl =
      1 - Phi ((Real.sqrt (1 / n * (2 * p_null * (1 - p_null))) * PhiInv (1 - alpha)
        - (p_alt - p_null))
        / Real.sqrt (1 / n * (p_null * (1 - p_null) + p_alt * (1 - p_alt)))) := by
  unfold power normCdf normPpf
  cases pl <;> simp

theorem power_closed_form (p_null p_alt n alpha : ℝ) (pl : Bool) (hn : 0 < n)
    (hA : 0 ≤ p_null * (1 - p_null)) (hB : 0 < p_null * (1 - p_null) + p_alt * (1 - p_alt)) :
    power p_null p_alt n alpha pl =
      1 - Phi ((Real.sqrt (2 * p_null * (1 - p_null)) * PhiInv (1 - alpha)
        - (p_alt - p_null) * Real.sqrt n)
        / Real.sqrt (p_null * (1 - p_null) + p_alt * (1 - p_alt))) := by
  rw [power_eq_one_sub]
  have hsn : (0:ℝ) < Real.sqrt n := Real.sqrt_pos.mpr hn
  have hsB : (0:ℝ) < Real.sqrt (p_null * (1 - p_null) + p_alt * (1 - p_alt)) :=
    Real.sqrt_pos.mpr hB
  rw [one_div_mul_eq_div, one_div_mul_eq_div,
    Real.sqrt_div (by nlinarith) n, Real.sqrt_div hB.le n]
  congr 2
  field_simp
  ring

/-! ### Monotonicity of `power` in the sample size -/

theorem power_strictMono_in_n {p_null p_alt alpha : ℝ} (h0 : 0 < p_null)
    (h01 : p_null < p_alt) (h1 : p_alt < 1) {m n : ℝ} (hm : 0 < m) (hmn : m < n) (pl : Bool) :
    power p_null p_alt m alpha pl < power p_null p_alt n alpha pl := by
  have hA : 0 ≤ p_null * (1 - p_null) := by nlinarith
  have hB : 0 < p_null * (1 - p_null) + p_alt * (1 - p_alt) := by nlinarith
  rw [power_closed_form _ _ _ _ _ hm hA hB,
    power_closed_form _ _ _ _ _ (lt_trans hm hmn) hA hB]
  have hd : 0 < p_alt - p_null := by linarith
  have hsm : Real.sqrt m < Real.sqrt n := Real.sqrt_lt_sqrt hm.le hmn
  have hB' : 0 < Real.sqrt (p_null * (1 - p_null) + p_alt * (1 - p_alt)) :=
    Real.sqrt_pos.mpr hB
  have hmul := mul_lt_mul_of_pos_left hsm hd
  have harg : (Real.sqrt (2 * p_null * (1 - p_null)) * PhiInv (1 - alpha)
      - (p_alt - p_null) * Real.sqrt n)
      / Real.sqrt (p_null * (1 - p_null) + p_alt * (1 - p_alt))
      < (Real.sqrt (2 * p_null * (1 - p_null)) * PhiInv (1 - alpha)
      - (p_alt - p_null) * Real.sqrt m)
      / Real.sqrt (p_null * (1 - p_null) + p_alt * (1 - p_alt)) := by
    rw [div_lt_div_iff_of_pos_right hB']
    linarith
  have := Phi_strictMono harg
  linarith

/-! ### Positivity of the solver output -/

theorem one_le_experiment_size {p_null p_alt alpha beta : ℝ}
    (h0 : 0 < p_null) (h01 : p_null < p_alt) (h1 : p_alt < 1)
    (ha0 : 0 < alpha) (ha : alpha < 1 / 2) (hb0 : 0 < beta) (hb : beta < 1 / 2) :
    1 ≤ experiment_size p_null p_alt alpha beta := by
  rw [experiment_size_eq]
  have hz : 0 < PhiInv (1 - alpha) := PhiInv_pos (by linarith) (by linarith)
  have hzb : PhiInv beta < 0 := PhiInv_neg_of_lt_half hb0 hb
  have hsd1 : 0 < Real.sqrt (2 * p_null * (1 - p_null)) :=
    Real.sqrt_pos.mpr (by nlinarith)
  have hsd2 : 0 < Real.sqrt (p_null * (1 - p_null) + p_alt * (1 - p_alt)) :=
    Real.sqrt_pos.mpr (by nlinarith)
  have hnum : 0 < PhiInv (1 - alpha) * Real.sqrt (2 * p_null * (1 - p_null))
      - PhiInv beta * Real.sqrt (p_null * (1 - p_null) + p_alt * (1 - p_alt)) := by
    nlinarith
  have hd : 0 < p_alt - p_null := by linarith
  have hq : 0 < ((PhiInv (1 - alpha) * Real.sqrt (2 * p_null * (1 - p_null))
      - PhiInv beta * Real.sqrt (p_null * (1 - p_null) + p_alt * (1 - p_alt)))
      / (p_alt - p_null)) ^ 2 := pow_pos (div_pos hnum hd) 2
  have h2 : (0:ℤ) < Int.ceil (((PhiInv (1 - alpha) * Real.sqrt (2 * p_null * (1 - p_null))
      - PhiInv beta * Real.sqrt (p_null * (1 - p_null) + p_alt * (1 - p_alt)))
      / (p_alt - p_null)) ^ 2) := Int.ceil_pos.mpr hq
  have h3 : (1:ℤ) ≤ Int.ceil (((PhiInv (1 - alpha) * Real.sqrt (2 * p_null * (1 - p_null))
      - PhiInv beta * Real.sqrt (p_null * (1 - p_null) + p_alt * (1 - p_alt)))
      / (p_alt - p_null)) ^ 2) := h2
  exact_mod_cast h3

/-! ### Alternating Taylor bounds for `exp (-u)` -/

theorem continuous_expP (n : ℕ) : Continuous fun u : ℝ => expP n u := by
  unfold expP
  apply continuous_finset_sum
  intro k _
  exact (continuous_neg.pow k).div_const _

theorem integral_exp_neg (u : ℝ) : ∫ t in (0:ℝ)..u, Real.exp (-t) = 1 - Real.exp (-u) := by
  have h := intervalIntegral.integral_comp_neg (a := (0:ℝ)) (b := u) (f := Real.exp)
  rw [h, neg_zero, integral_exp]
  simp

theorem integral_expP (n : ℕ) (u : ℝ) :
    ∫ t in (0:ℝ)..u, expP n t = 1 - expP (n + 1) u := by
  unfold expP
  rw [intervalIntegral.integral_finset_sum (fun k _ =>
    (((continuous_neg.pow k).div_const _).intervalIntegrable 0 u))]
  have hterm : ∀ k : ℕ, (∫ t in (0:ℝ)..u, (-t) ^ k / (Nat.factorial k : ℝ))
      = -((-u) ^ (k + 1) / (Nat.factorial (k + 1) : ℝ)) := by
    intro k
    have h1 : (fun t : ℝ => (-t) ^ k / (Nat.factorial k : ℝ))
        = fun t : ℝ => ((-1) ^ k / (Nat.factorial k : ℝ)) * t ^ k := by
      funext t
      rw [neg_pow]
      ring
    rw [h1, intervalIntegral.integral_const_mul, integral_pow]
    have hk : ((Nat.factorial (k + 1) : ℕ) : ℝ) = ((k:ℝ) + 1) * (Nat.factorial k : ℝ) := by
      rw [Nat.factorial_succ]
      push_cast
      ring
    rw [neg_pow u, hk, zero_pow (Nat.succ_ne_zero k)]
    have hkne : (Nat.factorial k : ℝ) ≠ 0 := Nat.cast_ne_zero.mpr (Nat.factorial_ne_zero k)
    have hk1 : ((k:ℝ) + 1) ≠ 0 := by positivity
    field_simp
    ring
  rw [Finset.sum_congr rfl (fun k _ => hterm k)]
  have hsplit : (∑ k in Finset.range (n + 1 + 1), (-u) ^ k / (Nat.factorial k : ℝ))
      = (∑ i in Finset.range (n + 1), (-u) ^ (i + 1) / (Nat.factorial (i + 1) : ℝ))
        + (-u) ^ 0 / (Nat.factorial 0 : ℝ) := Finset.sum_range_succ' _ (n + 1)
  have h0 : (-u) ^ 0 / ((Nat.factorial 0 : ℕ) : ℝ) = 1 := by norm_num [Nat.factorial]
  rw [hsplit, h0, Finset.sum_neg_distrib]
  ring

theorem expP_bound : ∀ n : ℕ, ∀ u : ℝ, 0 ≤ u →
    (Even n → Real.exp (-u) ≤ expP n u) ∧ (Odd n → expP n u ≤ Real.exp (-u)) := by
  intro n
  induction n with
  | zero =>
    intro u hu
    refine ⟨fun _ => ?_, fun h => absurd h (by simp)⟩
    have h : expP 0 u = 1 := by
      unfold expP
      norm_num [Nat.factorial]
    rw [h]
    exact Real.exp_le_one_iff.mpr (by linarith)
  | succ m ih =>
    intro u hu
    have hint_exp : IntervalIntegrable (fun t : ℝ => Real.exp (-t))
        MeasureTheory.volume 0 u :=
      (Real.continuous_exp.comp continuous_neg).intervalIntegrable 0 u
    have hint_P : IntervalIntegrable (fun t : ℝ => expP m t) MeasureTheory.volume 0 u :=
      (continuous_expP m).intervalIntegrable 0 u
    constructor
    · intro he
      have hom : Odd m := Nat.odd_iff_not_even.mpr (Nat.even_add_one.mp he)
      have hpt : ∀ t ∈ Set.Icc (0:ℝ) u, expP m t ≤ Real.exp (-t) := fun t ht =>
        (ih t ht.1).2 hom
      have hle := intervalIntegral.integral_mono_on hu hint_P hint_exp hpt
      rw [integral_expP, integral_exp_neg] at hle
      linarith
    · intro ho
      have hem : Even m := by
        rcases Nat.even_or_odd m with h | h
        · exact h
        · exact absurd h.add_one (Nat.odd_iff_not_even.mp ho)
      have hpt : ∀ t ∈ Set.Icc (0:ℝ) u, Real.exp (-t) ≤ expP m t := fun t ht =>
        (ih t ht.1).1 hem
      have hle := intervalIntegral.integral_mono_on hu hint_exp hint_P hpt
      rw [integral_expP, integral_exp_neg] at hle
      linarith

/-! ### Polynomial enclosure of the Gaussian integral -/

theorem gauss_le_expP (m : ℕ) (t : ℝ) : gauss t ≤ expP (2 * m) (t ^ 2 / 2) := by
  have h := (expP_bound (2 * m) (t ^ 2 / 2) (by positivity)).1 (even_two_mul m)
  have hg : gauss t = Real.exp (-(t ^ 2 / 2)) := by
    unfold gauss
    congr 1
    ring
  rw [hg]
  exact h

theorem expP_le_gauss (m : ℕ) (t : ℝ) : expP (2 * m + 1) (t ^ 2 / 2) ≤ gauss t := by
  have h := (expP_bound (2 * m + 1) (t ^ 2 / 2) (by positivity)).2 (odd_two_mul_add_one m)
  have hg : gauss t = Real.exp (-(t ^ 2 / 2)) := by
    unfold gauss
    congr 1
    ring
  rw [hg]
  exact h

theorem continuous_expP_sq (n : ℕ) : Continuous fun t : ℝ => expP n (t ^ 2 / 2) :=
  (continuous_expP n).comp ((continuous_pow 2).div_const 2)

theorem integral_expP_sq (n : ℕ) (x : ℝ) :
    ∫ t in (0:ℝ)..x, expP n (t ^ 2 / 2) = gaussP n x := by
  unfold expP gaussP
  rw [intervalIntegral.integral_finset_sum (fun k _ =>
    (((((continuous_pow 2).div_const 2).neg.pow k).div_const _).intervalIntegrable 0 x))]
  have hterm : ∀ k : ℕ, (∫ t in (0:ℝ)..x, (-(t ^ 2 / 2)) ^ k / (Nat.factorial k : ℝ))
      = (-1) ^ k * x ^ (2 * k + 1) / (((2 * k + 1) * 2 ^ k * Nat.factorial k : ℕ) : ℝ) := by
    intro k
    have h1 : (fun t : ℝ => (-(t ^ 2 / 2)) ^ k / (Nat.factorial k : ℝ))
        = fun t : ℝ => ((-1) ^ k / (2 ^ k * (Nat.factorial k : ℝ))) * t ^ (2 * k) := by
      funext t
      rw [neg_pow, div_pow, pow_mul]
      ring
    rw [h1, intervalIntegral.integral_const_mul, integral_pow]
    have hne2 : (Nat.factorial k : ℝ) ≠ 0 := Nat.cast_ne_zero.mpr (Nat.factorial_ne_zero k)
    rw [zero_pow (by omega : 2 * k + 1 ≠ 0)]
    push_cast
    field_simp
    ring_nf
    exact Or.inl trivial
  rw [Finset.sum_congr rfl (fun k _ => hterm k)]

theorem intervalIntegral_gauss_le (m : ℕ) (x : ℝ) (hx : 0 ≤ x) :
    (∫ t in (0:ℝ)..x, gauss t) ≤ gaussP (2 * m) x := by
  rw [← integral_expP_sq]
  exact intervalIntegral.integral_mono_on hx (gauss_intervalIntegrable 0 x)
    ((continuous_expP_sq (2 * m)).intervalIntegrable 0 x)
    (fun t _ => gauss_le_expP m t)

theorem le_intervalIntegral_gauss (m : ℕ) (x : ℝ) (hx : 0 ≤ x) :
    gaussP (2 * m + 1) x ≤ ∫ t in (0:ℝ)..x, gauss t := by
  rw [← integral_expP_sq]
  exact intervalIntegral.integral_mono_on hx
    ((continuous_expP_sq (2 * m + 1)).intervalIntegrable 0 x)
    (gauss_intervalIntegrable 0 x)
    (fun t _ => expP_le_gauss m t)

/-! ### Numeric bounds on `Phi` at rational points -/

theorem Phi_eq_half_add (x : ℝ) :
    Phi x = 1 / 2 + (∫ t in (0:ℝ)..x, gauss t) / Real.sqrt (2 * Real.pi) := by
  unfold Phi
  rw [integral_Iic_gauss_split 0 x, add_div]
  congr 1
  exact Phi_zero

theorem sqrt_two_pi_gt : 2.506628 < Real.sqrt (2 * Real.pi) := by
  rw [show (2.506628 : ℝ) = Real.sqrt (2.506628 ^ 2) by
    rw [Real.sqrt_sq (by norm_num)]]
  apply Real.sqrt_lt_sqrt (by positivity)
  nlinarith [Real.pi_gt_d6]

theorem sqrt_two_pi_lt : Real.sqrt (2 * Real.pi) < 2.506629 := by
  rw [Real.sqrt_lt' (by norm_num)]
  nlinarith [Real.pi_lt_d6]

theorem intervalIntegral_gauss_nonneg (x : ℝ) (hx : 0 ≤ x) :
    0 ≤ ∫ t in (0:ℝ)..x, gauss t :=
  intervalIntegral.integral_nonneg hx fun t _ => (gauss_pos t).le

theorem Phi_le_of_gaussP (x c : ℝ) (m : ℕ) (hx : 0 ≤ x)
    (hc : gaussP (2 * m) x ≤ c) (hc0 : 0 ≤ c) :
    Phi x ≤ 1 / 2 + c / 2.506628 := by
  rw [Phi_eq_half_add]
  have hIc : (∫ t in (0:ℝ)..x, gauss t) ≤ c :=
    le_trans (intervalIntegral_gauss_le m x hx) hc
  have h1 : (∫ t in (0:ℝ)..x, gauss t) / Real.sqrt (2 * Real.pi)
      ≤ c / Real.sqrt (2 * Real.pi) := by
    rw [div_le_div_iff_of_pos_right sqrt_two_pi_pos]
    exact hIc
  have h2 : c / Real.sqrt (2 * Real.pi) ≤ c / 2.506628 :=
    div_le_div_of_nonneg_left hc0 (by norm_num) sqrt_two_pi_gt.le
  linarith

theorem le_Phi_of_gaussP (x c : ℝ) (m : ℕ) (hx : 0 ≤ x)
    (hc : c ≤ gaussP (2 * m + 1) x) (hc0 : 0 ≤ c) :
    1 / 2 + c / 2.506629 ≤ Phi x := by
  rw [Phi_eq_half_add]
  have hIc : c ≤ ∫ t in (0:ℝ)..x, gauss t :=
    le_trans hc (le_intervalIntegral_gauss m x hx)
  have h1 : c / Real.sqrt (2 * Real.pi)
      ≤ (∫ t in (0:ℝ)..x, gauss t) / Real.sqrt (2 * Real.pi) := by
    rw [div_le_div_iff_of_pos_right sqrt_two_pi_pos]
    exact hIc
  have h2 : c / 2.506629 ≤ c / Real.sqrt (2 * Real.pi) :=
    div_le_div_of_nonneg_left hc0 sqrt_two_pi_pos sqrt_two_pi_lt.le
  linarith

theorem Phi_1642_lt : Phi (1642 / 1000) < 19 / 20 := by
  have hg : gaussP 8 (1642 / 1000) ≤ 1127247 / 1000000 := by
    unfold gaussP
    simp only [Finset.sum_range_succ, Finset.sum_range_zero]
    norm_num [Nat.factorial]
  have h := Phi_le_of_gaussP (1642 / 1000) (1127247 / 1000000) 4 (by norm_num) hg (by norm_num)
  calc Phi (1642 / 1000) ≤ 1 / 2 + (1127247 / 1000000) / 2.506628 := h
    _ < 19 / 20 := by norm_num

theorem Phi_1648_gt : 19 / 20 < Phi (1648 / 1000) := by
  have hg : (1128793 / 1000000 : ℝ) ≤ gaussP 9 (1648 / 1000) := by
    unfold gaussP
    simp only [Finset.sum_range_succ, Finset.sum_range_zero]
    norm_num [Nat.factorial]
  have h := le_Phi_of_gaussP (1648 / 1000) (1128793 / 1000000) 4 (by norm_num) hg (by norm_num)
  calc (19 / 20 : ℝ) < 1 / 2 + (1128793 / 1000000) / 2.506629 := by norm_num
    _ ≤ Phi (1648 / 1000) := h

theorem Phi_838_lt : Phi (838 / 1000) < 4 / 5 := by
  have hg : gaussP 8 (838 / 1000) ≤ 749444 / 1000000 := by
    unfold gaussP
    simp only [Finset.sum_range_succ, Finset.sum_range_zero]
    norm_num [Nat.factorial]
  have h := Phi_le_of_gaussP (838 / 1000) (749444 / 1000000) 4 (by norm_num) hg (by norm_num)
  calc Phi (838 / 1000) ≤ 1 / 2 + (749444 / 1000000) / 2.506628 := h
    _ < 4 / 5 := by norm_num

theorem Phi_845_gt : 4 / 5 < Phi (845 / 1000) := by
  have hg : (754356 / 1000000 : ℝ) ≤ gaussP 9 (845 / 1000) := by
    unfold gaussP
    simp only [Finset.sum_range_succ, Finset.sum_range_zero]
    norm_num [Nat.factorial]
  have h := le_Phi_of_gaussP (845 / 1000) (754356 / 1000000) 4 (by norm_num) hg (by norm_num)
  calc (4 / 5 : ℝ) < 1 / 2 + (754356 / 1000000) / 2.506629 := by norm_num
    _ ≤ Phi (845 / 1000) := h

theorem Phi_151_lt : Phi (151 / 1000) < 5601 / 10000 := by
  have hg : gaussP 8 (151 / 1000) ≤ 150429 / 1000000 := by
    unfold gaussP
    simp only [Finset.sum_range_succ, Finset.sum_range_zero]
    norm_num [Nat.factorial]
  have h := Phi_le_of_gaussP (151 / 1000) (150429 / 1000000) 4 (by norm_num) hg (by norm_num)
  calc Phi (151 / 1000) ≤ 1 / 2 + (150429 / 1000000) / 2.506628 := h
    _ < 5601 / 10000 := by norm_num

theorem Phi_145_gt : 5576 / 10000 < Phi (145 / 1000) := by
  have hg : (144493 / 1000000 : ℝ) ≤ gaussP 9 (145 / 1000) := by
    unfold gaussP
    simp only [Finset.sum_range_succ, Finset.sum_range_zero]
    norm_num [Nat.factorial]
  have h := le_Phi_of_gaussP (145 / 1000) (144493 / 1000000) 4 (by norm_num) hg (by norm_num)
  calc (5576 / 10000 : ℝ) < 1 / 2 + (144493 / 1000000) / 2.506629 := by norm_num
    _ ≤ Phi (145 / 1000) := h

/-! ### Rational brackets for the two quantiles used by the scenarios -/

theorem PhiInv_95_gt : (1642 / 1000 : ℝ) < PhiInv (19 / 20) :=
  lt_PhiInv (by norm_num) Phi_1642_lt

theorem PhiInv_95_lt : PhiInv (19 / 20) < (1648 / 1000 : ℝ) :=
  PhiInv_lt (by norm_num) Phi_1648_gt

theorem PhiInv_fifth_lt : PhiInv (1 / 5) < -(838 / 1000 : ℝ) := by
  apply PhiInv_lt (by norm_num)
  rw [show (-(838 / 1000 : ℝ)) = -(838 / 1000 : ℝ) from rfl, Phi_neg]
  have := Phi_838_lt
  linarith

theorem PhiInv_fifth_gt : -(845 / 1000 : ℝ) < PhiInv (1 / 5) := by
  apply lt_PhiInv (by norm_num)
  rw [Phi_neg]
  have := Phi_845_gt
  linarith

/-! ### Claim theorems -/

theorem one_sub_Phi_mem_Icc (y : ℝ) : 1 - Phi y ∈ Set.Icc (0:ℝ) 1 :=
  ⟨by linarith [Phi_lt_one y], by linarith [Phi_pos y]⟩

/-- C3: for every input with p_null, p_alt in (0,1), n a positive integer and
alpha in (0,1), the value returned by `power` lies in the closed interval
[0, 1].  (The returned value is `1 - Phi y` for some real `y`, and `Phi`
genuinely takes values in (0,1).) -/
theorem C3_power_mem_unit_interval (p_null p_alt alpha : ℝ) (n : ℕ)
    (h0 : 0 < p_null) (h1 : p_null < 1) (h2 : 0 < p_alt) (h3 : p_alt < 1)
    (hn : 1 ≤ n) (ha0 : 0 < alpha) (ha1 : alpha < 1) :
    power p_null p_alt (n : ℝ) alpha true ∈ Set.Icc (0:ℝ) 1 := by
  rw [power_eq_one_sub]
  exact one_sub_Phi_mem_Icc _

/-- Witness for C3 at p_null = 1/10, p_alt = 3/25, n = 2, alpha = 1/20. -/
theorem C3_power_mem_unit_interval_witness :
    power (1/10) (3/25) ((2:ℕ) : ℝ) (1/20) true ∈ Set.Icc (0:ℝ) 1 :=
  C3_power_mem_unit_interval (1/10) (3/25) (1/20) 2 (by norm_num) (by norm_num)
    (by norm_num) (by norm_num) (by norm_num) (by norm_num) (by norm_num)

/-- C9: the visualization flag does not influence the numeric result: for
every input, `power` with plot = true and plot = false return the same
value.  In the source both paths reach the same `return (1 - beta)` and the
plotting block only feeds matplotlib. -/
theorem C9_plot_irrelevant (p_null p_alt n alpha : ℝ) :
    power p_null p_alt n alpha true = power p_null p_alt n alpha false := by
  unfold power
  simp

/-- C2: for parameters 0 < p_null < p_alt < 1 and 0 < alpha < 1, `power` is
monotonically non-decreasing in the sample size over positive integers, and
power at n = 1 is defined (the embedding is total) and strictly below power
at n = 10000. -/
theorem C2_power_monotone_in_n (p_null p_alt alpha : ℝ)
    (h0 : 0 < p_null) (h01 : p_null < p_alt) (h1 : p_alt < 1)
    (ha0 : 0 < alpha) (ha1 : alpha < 1) :
    (∀ m n : ℕ, 1 ≤ m → m ≤ n →
      power p_null p_alt (m : ℝ) alpha true ≤ power p_null p_alt (n : ℝ) alpha true) ∧
    power p_null p_alt 1 alpha true < power p_null p_alt 10000 alpha true := by
  constructor
  · intro m n hm hmn
    rcases eq_or_lt_of_le hmn with heq | hlt
    · rw [heq]
    · have hm' : (0:ℝ) < (m:ℝ) := by
        have : (1:ℝ) ≤ (m:ℝ) := by exact_mod_cast hm
        linarith
      have hlt' : ((m:ℝ)) < (n:ℝ) := by exact_mod_cast hlt
      exact (power_strictMono_in_n h0 h01 h1 hm' hlt' true).le
  · exact power_strictMono_in_n h0 h01 h1 (by norm_num) (by norm_num) true

/-- Witness for C2 at p_null = 1/10, p_alt = 3/25, alpha = 1/20, with the
monotonicity part instantiated at m = 5, n = 7. -/
theorem C2_power_monotone_in_n_witness :
    power (1/10) (3/25) ((5:ℕ) : ℝ) (1/20) true ≤ power (1/10) (3/25) ((7:ℕ) : ℝ) (1/20) true ∧
    power (1/10) (3/25) 1 (1/20) true < power (1/10) (3/25) 10000 (1/20) true :=
  ⟨(C2_power_monotone_in_n (1/10) (3/25) (1/20) (by norm_num) (by norm_num) (by norm_num)
      (by norm_num) (by norm_num)).1 5 7 (by norm_num) (by norm_num),
   (C2_power_monotone_in_n (1/10) (3/25) (1/20) (by norm_num) (by norm_num) (by norm_num)
      (by norm_num) (by norm_num)).2⟩

/-- C10: for 0 < p_null < p_alt < 1 and alpha, beta in (0, 0.5), the value
returned by `experiment_size` is at least 1: the z-scores have opposite
signs, so the squared ratio is strictly positive and its ceiling is a
positive count. -/
theorem C10_experiment_size_pos (p_null p_alt alpha beta : ℝ)
    (h0 : 0 < p_null) (h01 : p_null < p_alt) (h1 : p_alt < 1)
    (ha0 : 0 < alpha) (ha : alpha < 1 / 2) (hb0 : 0 < beta) (hb : beta < 1 / 2) :
    1 ≤ experiment_size p_null p_alt alpha beta :=
  one_le_experiment_size h0 h01 h1 ha0 ha hb0 hb

/-- Witness for C10 at p_null = 1/10, p_alt = 3/25, alpha = beta = 1/4. -/
theorem C10_experiment_size_pos_witness :
    1 ≤ experiment_size (1/10) (3/25) (1/4) (1/4) :=
  C10_experiment_size_pos (1/10) (3/25) (1/4) (1/4) (by norm_num) (by norm_num)
    (by norm_num) (by norm_num) (by norm_num) (by norm_num) (by norm_num)

/-- C5: for valid directional inputs, `experiment_size` returns (the real
value of) the integer ceiling of
`((z_alpha*sd_null - z_beta*sd_alt) / (p_alt - p_null))^2`, with
`z_alpha = PhiInv (1-alpha)`, `z_beta = PhiInv beta`,
`sd_null = sqrt (2 p_null (1-p_null))` and
`sd_alt = sqrt (p_null (1-p_null) + p_alt (1-p_alt))` -- the formula stated
by the specification. -/
theorem C5_experiment_size_is_ceil_formula (p_null p_alt alpha beta : ℝ)
    (h0 : 0 < p_null) (h01 : p_null < p_alt) (h1 : p_alt < 1)
    (ha0 : 0 < alpha) (ha1 : alpha < 1) (hb0 : 0 < beta) (hb1 : beta < 1) :
    experiment_size p_null p_alt alpha beta =
      ((Int.ceil (((PhiInv (1 - alpha) * Real.sqrt (2 * p_null * (1 - p_null))
        - PhiInv beta * Real.sqrt (p_null * (1 - p_null) + p_alt * (1 - p_alt)))
        / (p_alt - p_null)) ^ 2) : ℤ) : ℝ) :=
  experiment_size_eq p_null p_alt alpha beta

/-- Witness for C5 at p_null = 1/10, p_alt = 3/25, alpha = 1/20, beta = 1/5. -/
theorem C5_experiment_size_is_ceil_formula_witness :
    experiment_size (1/10) (3/25) (1/20) (1/5) =
      ((Int.ceil (((PhiInv (1 - 1/20) * Real.sqrt (2 * (1/10) * (1 - 1/10))
        - PhiInv (1/5) * Real.sqrt ((1/10) * (1 - 1/10) + (3/25) * (1 - 3/25)))
        / (3/25 - 1/10)) ^ 2) : ℤ) : ℝ) :=
  C5_experiment_size_is_ceil_formula (1/10) (3/25) (1/20) (1/5) (by norm_num) (by norm_num)
    (by norm_num) (by norm_num) (by norm_num) (by norm_num) (by norm_num)

/-- C6: for valid inputs, `power` returns `1 - beta` where `beta` is the cdf
of the normal distribution with mean `p_alt - p_null` and scale
`sqrt ((p_null (1-p_null) + p_alt (1-p_alt)) / n)` evaluated at `p_crit`,
and `p_crit` is the `(1-alpha)` quantile of the normal distribution with
mean 0 and scale `sqrt (2 p_null (1-p_null) / n)` -- the formula stated by
the specification. -/
theorem C6_power_is_one_sub_beta (p_null p_alt alpha : ℝ) (n : ℕ)
    (h0 : 0 < p_null) (h01 : p_null < p_alt) (h1 : p_alt < 1) (hn : 1 ≤ n)
    (ha0 : 0 < alpha) (ha1 : alpha < 1) :
    power p_null p_alt (n : ℝ) alpha true =
      1 - normCdf (p_alt - p_null)
        (Real.sqrt ((p_null * (1 - p_null) + p_alt * (1 - p_alt)) / (n : ℝ)))
        (normPpf 0 (Real.sqrt (2 * p_null * (1 - p_null) / (n : ℝ))) (1 - alpha)) := by
  rw [power_eq_one_sub]
  unfold normCdf normPpf
  rw [one_div_mul_eq_div, one_div_mul_eq_div]
  norm_num

/-- Witness for C6 at p_null = 1/10, p_alt = 3/25, n = 2, alpha = 1/20. -/
theorem C6_power_is_one_sub_beta_witness :
    power (1/10) (3/25) ((2:ℕ) : ℝ) (1/20) true =
      1 - normCdf (3/25 - 1/10)
        (Real.sqrt (((1/10) * (1 - 1/10) + (3/25) * (1 - 3/25)) / ((2:ℕ) : ℝ)))
        (normPpf 0 (Real.sqrt (2 * (1/10) * (1 - 1/10) / ((2:ℕ) : ℝ))) (1 - 1/20)) :=
  C6_power_is_one_sub_beta (1/10) (3/25) (1/20) 2 (by norm_num) (by norm_num)
    (by norm_num) (by norm_num) (by norm_num) (by norm_num)

/-- C1 (amended): whenever `experiment_size` returns at least 1 -- which it
does whenever the solver's squared ratio is nonzero, in particular for all
alpha, beta in (0, 1/2) -- feeding its output back into `power` achieves the
requested power: `power p_null p_alt n* alpha >= 1 - beta` exactly (hence
also up to any floating-point tolerance). -/
theorem C1_amended_consistency (p_null p_alt alpha beta : ℝ)
    (h0 : 0 < p_null) (h01 : p_null < p_alt) (h1 : p_alt < 1)
    (ha0 : 0 < alpha) (ha1 : alpha < 1) (hb0 : 0 < beta) (hb1 : beta < 1)
    (hsize : 1 ≤ experiment_size p_null p_alt alpha beta) :
    1 - beta ≤ power p_null p_alt (experiment_size p_null p_alt alpha beta) alpha true := by
  have hA : 0 ≤ p_null * (1 - p_null) := by nlinarith
  have hB : 0 < p_null * (1 - p_null) + p_alt * (1 - p_alt) := by nlinarith
  have hn : 0 < experiment_size p_null p_alt alpha beta := by linarith
  rw [power_closed_form _ _ _ _ _ hn hA hB]
  have hsB : 0 < Real.sqrt (p_null * (1 - p_null) + p_alt * (1 - p_alt)) :=
    Real.sqrt_pos.mpr hB
  have hd : 0 < p_alt - p_null := by linarith
  have hbeta : Phi (PhiInv beta) = beta := Phi_PhiInv hb0 hb1
  set R := (PhiInv (1 - alpha) * Real.sqrt (2 * p_null * (1 - p_null))
    - PhiInv beta * Real.sqrt (p_null * (1 - p_null) + p_alt * (1 - p_alt)))
    / (p_alt - p_null) with hR
  have hceil : R ^ 2 ≤ experiment_size p_null p_alt alpha beta := by
    rw [experiment_size_eq, ← hR]
    exact Int.le_ceil (R ^ 2)
  have hkey : R ≤ Real.sqrt (experiment_size p_null p_alt alpha beta) :=
    calc R ≤ |R| := le_abs_self R
      _ = Real.sqrt (R ^ 2) := (Real.sqrt_sq_eq_abs R).symm
      _ ≤ Real.sqrt (experiment_size p_null p_alt alpha beta) := Real.sqrt_le_sqrt hceil
  have hRd : PhiInv (1 - alpha) * Real.sqrt (2 * p_null * (1 - p_null))
      - PhiInv beta * Real.sqrt (p_null * (1 - p_null) + p_alt * (1 - p_alt))
      = (p_alt - p_null) * R := by
    rw [hR, mul_div_cancel₀ _ hd.ne']
  have hmul := mul_le_mul_of_nonneg_left hkey hd.le
  have harg : (Real.sqrt (2 * p_null * (1 - p_null)) * PhiInv (1 - alpha)
      - (p_alt - p_null) * Real.sqrt (experiment_size p_null p_alt alpha beta))
      / Real.sqrt (p_null * (1 - p_null) + p_alt * (1 - p_alt)) ≤ PhiInv beta := by
    rw [div_le_iff hsB]
    nlinarith
  have hmono := Phi_strictMono.monotone harg
  rw [hbeta] at hmono
  linarith

/-- Witness for the amended C1 at p_null = 1/10, p_alt = 3/25,
alpha = beta = 1/4; the side condition `1 <= experiment_size ...` is
discharged by the positivity lemma for the solver. -/
theorem C1_amended_consistency_witness :
    1 - (1/4 : ℝ) ≤ power (1/10) (3/25) (experiment_size (1/10) (3/25) (1/4) (1/4)) (1/4) true :=
  C1_amended_consistency (1/10) (3/25) (1/4) (1/4) (by norm_num) (by norm_num) (by norm_num)
    (by norm_num) (by norm_num) (by norm_num) (by norm_num)
    (one_le_experiment_size (by norm_num) (by norm_num) (by norm_num) (by norm_num)
      (by norm_num) (by norm_num) (by norm_num))

/-- C1 (counterexample): the consistency law as frozen -- for EVERY alpha,
beta in (0,1), even with a 1e-6 tolerance -- is false.  At p_null = 1/10,
p_alt = 3/10, beta = 2/5 and the explicit
alpha = 1 - Phi (PhiInv (2/5) * sqrt (3/10) / sqrt (9/50)), the two z-terms
of the solver cancel exactly, `experiment_size` returns ceil(0) = 0, and
`power` at n = 0 hits the degenerate division (NumPy: nan via 1/0.0 = inf;
real embedding: the standard errors collapse to 0 and the value is 1/2),
so the returned value is not >= 1 - 2/5 - 1e-6. -/
theorem C1_claim_counterexample :
    ¬ (∀ p_null p_alt alpha beta : ℝ,
        0 < p_null → p_null < p_alt → p_alt < 1 →
        0 < alpha → alpha < 1 → 0 < beta → beta < 1 →
        1 - beta - 1 / 1000000
          ≤ power p_null p_alt (experiment_size p_null p_alt alpha beta) alpha true) := by
  intro hclaim
  set c := PhiInv (2/5) * Real.sqrt (3/10) / Real.sqrt (9/50) with hc
  have halpha0 : 0 < 1 - Phi c := by linarith [Phi_lt_one c]
  have halpha1 : 1 - Phi c < 1 := by linarith [Phi_pos c]
  have h := hclaim (1/10) (3/10) (1 - Phi c) (2/5) (by norm_num) (by norm_num) (by norm_num)
    halpha0 halpha1 (by norm_num) (by norm_num)
  have hz : PhiInv (1 - (1 - Phi c)) = c := by
    rw [show (1 - (1 - Phi c)) = Phi c by ring, PhiInv_Phi]
  have hsize : experiment_size (1/10) (3/10) (1 - Phi c) (2/5) = 0 := by
    rw [experiment_size_eq, hz]
    have h1 : (2 * (1/10) * (1 - 1/10) : ℝ) = 9/50 := by norm_num
    have h2 : ((1/10) * (1 - 1/10) + (3/10) * (1 - 3/10) : ℝ) = 3/10 := by norm_num
    rw [h1, h2]
    have hnum : c * Real.sqrt (9/50) - PhiInv (2/5) * Real.sqrt (3/10) = 0 := by
      rw [hc, div_mul_cancel₀ _ (Real.sqrt_ne_zero'.mpr (by norm_num)), sub_self]
    rw [hnum]
    norm_num
  rw [hsize] at h
  have hpow : power (1/10) (3/10) 0 (1 - Phi c) true = 1/2 := by
    unfold power normCdf normPpf
    norm_num [Phi_zero]
  rw [hpow] at h
  norm_num at h

/-- C4 (counterexample): the claim says `experiment_size` fails with an
InvalidInput error whenever p_alt <= p_null and returns no numeric result;
in fact the source performs no validation at all.  At
p_null = p_alt = 1/10, alpha = 1/20, beta = 1/5, the zero effect size is
divided through silently and a numeric value is returned (0 under the real
embedding's `x / 0 = 0` convention; NumPy returns `inf` with only a runtime
warning) -- there is no error path anywhere in the function. -/
theorem C4_claim_counterexample : experiment_size (1/10) (1/10) (1/20) (1/5) = 0 := by
  rw [experiment_size_eq]
  norm_num

/-- C4 (amended): `experiment_size` performs no validation of the
directionality invariant: for p_alt = p_null the division by the zero effect
size proceeds and a numeric value is silently returned (0 in the real
embedding, where division by zero yields 0 and the ceiling of 0 is 0; `inf`
in NumPy), and no InvalidInput error exists in the code. -/
theorem C4_amended_no_validation (p alpha beta : ℝ) :
    experiment_size p p alpha beta = 0 := by
  rw [experiment_size_eq]
  norm_num

/-- C8 (counterexample): the claim says `power` fails with an InvalidInput
error for n < 1; in fact the source performs no validation.  At n = -1 the
negative variance makes both standard errors degenerate (NumPy: sqrt of a
negative number is nan with a warning, and nan propagates to the returned
value; real embedding: `Real.sqrt` of a negative number is 0 and the
degenerate cdf evaluates at the collapsed critical value 0), and a numeric
value -- 1/2 in the embedding -- is returned, not an error. -/
theorem C8_claim_counterexample : power (1/10) (3/25) (-1) (1/20) true = 1/2 := by
  have h1 : Real.sqrt (1 / (-1 : ℝ) * (2 * (1/10) * (1 - 1/10))) = 0 :=
    Real.sqrt_eq_zero'.mpr (by norm_num)
  have h2 : Real.sqrt (1 / (-1 : ℝ) * ((1/10) * (1 - 1/10) + (3/25) * (1 - 3/25))) = 0 :=
    Real.sqrt_eq_zero'.mpr (by norm_num)
  unfold power normCdf normPpf
  rw [h1, h2]
  norm_num [Phi_zero]

/-- C8 (amended): `power` performs no sample-size validation: for every
n <= 0 (with probabilities in (0,1)) the variance term `1/n * (...)` is
nonpositive, both standard errors collapse to the junk value 0, and `power`
silently returns the numeric value 1/2 (NumPy propagates nan or raises
ZeroDivisionError for the int 0 -- in every case no InvalidInput error is
raised). -/
theorem C8_amended_no_validation (p_null p_alt alpha n : ℝ)
    (h0 : 0 < p_null) (h1 : p_null < 1) (h2 : 0 < p_alt) (h3 : p_alt < 1)
    (hn : n ≤ 0) :
    power p_null p_alt n alpha true = 1/2 := by
  have hA : 1 / n * (2 * p_null * (1 - p_null)) ≤ 0 := by
    rcases eq_or_lt_of_le hn with heq | hlt
    · rw [heq]
      norm_num
    · have hinv : 1 / n < 0 := one_div_neg.mpr hlt
      have hpos : 0 < 2 * p_null * (1 - p_null) := by nlinarith
      exact (mul_neg_of_neg_of_pos hinv hpos).le
  have hB : 1 / n * (p_null * (1 - p_null) + p_alt * (1 - p_alt)) ≤ 0 := by
    rcases eq_or_lt_of_le hn with heq | hlt
    · rw [heq]
      norm_num
    · have hinv : 1 / n < 0 := one_div_neg.mpr hlt
      have hpos : 0 < p_null * (1 - p_null) + p_alt * (1 - p_alt) := by nlinarith
      exact (mul_neg_of_neg_of_pos hinv hpos).le
  have h1 : Real.sqrt (1 / n * (2 * p_null * (1 - p_null))) = 0 :=
    Real.sqrt_eq_zero'.mpr hA
  have h2 : Real.sqrt (1 / n * (p_null * (1 - p_null) + p_alt * (1 - p_alt))) = 0 :=
    Real.sqrt_eq_zero'.mpr hB
  unfold power normCdf normPpf
  rw [h1, h2]
  norm_num [Phi_zero]

/-- Witness for the amended C8 at p_null = 1/10, p_alt = 3/25,
alpha = 1/20, n = -2. -/
theorem C8_amended_no_validation_witness :
    power (1/10) (3/25) (-2) (1/20) true = 1/2 :=
  C8_amended_no_validation (1/10) (3/25) (1/20) (-2) (by norm_num) (by norm_num)
    (by norm_num) (by norm_num) (by norm_num)

/-! ### Certified brackets for the concrete scenario of the specification -/

theorem sqrt_018_bracket :
    (424264/1000000 : ℝ) < Real.sqrt (2 * (1/10) * (1 - 1/10)) ∧
    Real.sqrt (2 * (1/10) * (1 - 1/10)) < 424265/1000000 := by
  have he : (2 * (1/10) * (1 - 1/10) : ℝ) = 18/100 := by norm_num
  rw [he]
  constructor
  · rw [Real.lt_sqrt (by norm_num)]
    norm_num
  · rw [Real.sqrt_lt' (by norm_num)]
    norm_num

theorem sqrt_01956_bracket :
    (442266/1000000 : ℝ) < Real.sqrt ((1/10) * (1 - 1/10) + (3/25) * (1 - 3/25)) ∧
    Real.sqrt ((1/10) * (1 - 1/10) + (3/25) * (1 - 3/25)) < 442267/1000000 := by
  have he : ((1/10) * (1 - 1/10) + (3/25) * (1 - 3/25) : ℝ) = 1956/10000 := by norm_num
  rw [he]
  constructor
  · rw [Real.lt_sqrt (by norm_num)]
    norm_num
  · rw [Real.sqrt_lt' (by norm_num)]
    norm_num

theorem sqrt_1000_bracket :
    (31622776/1000000 : ℝ) < Real.sqrt 1000 ∧ Real.sqrt 1000 < 31622777/1000000 := by
  constructor
  · rw [Real.lt_sqrt (by norm_num)]
    norm_num
  · rw [Real.sqrt_lt' (by norm_num)]
    norm_num

theorem power_scenario_bracket :
    4399/10000 < power (1/10) (3/25) 1000 (1/20) true ∧
    power (1/10) (3/25) 1000 (1/20) true < 4424/10000 := by
  have hApos : (0:ℝ) ≤ (1/10) * (1 - 1/10) := by norm_num
  have hBpos : (0:ℝ) < (1/10) * (1 - 1/10) + (3/25) * (1 - 3/25) := by norm_num
  rw [power_closed_form (1/10) (3/25) 1000 (1/20) true (by norm_num) hApos hBpos]
  rw [show (1 - 1/20 : ℝ) = 19/20 by norm_num]
  obtain ⟨hA1, hA2⟩ := sqrt_018_bracket
  obtain ⟨hB1, hB2⟩ := sqrt_01956_bracket
  obtain ⟨hn1, hn2⟩ := sqrt_1000_bracket
  have hz1 := PhiInv_95_gt
  have hz2 := PhiInv_95_lt
  have hz0 : (0:ℝ) < PhiInv (19/20) := by linarith
  have hsA0 : (0:ℝ) ≤ Real.sqrt (2 * (1/10) * (1 - 1/10)) := Real.sqrt_nonneg _
  have hsB0 : (0:ℝ) < Real.sqrt ((1/10) * (1 - 1/10) + (3/25) * (1 - 3/25)) := by linarith
  have hprod_hi : Real.sqrt (2 * (1/10) * (1 - 1/10)) * PhiInv (19/20)
      < (424265/1000000) * (1648/1000) :=
    mul_lt_mul'' hA2 hz2 hsA0 hz0.le
  have hprod_lo : (424264/1000000 : ℝ) * (1642/1000)
      < Real.sqrt (2 * (1/10) * (1 - 1/10)) * PhiInv (19/20) :=
    mul_lt_mul'' hA1 hz1 (by norm_num) (by norm_num)
  have hnum_hi : Real.sqrt (2 * (1/10) * (1 - 1/10)) * PhiInv (19/20)
      - (3/25 - 1/10) * Real.sqrt 1000 < 66734/1000000 := by
    have h50 : (3/25 - 1/10 : ℝ) = 1/50 := by norm_num
    rw [h50]
    nlinarith
  have hnum_lo : (64185/1000000 : ℝ) < Real.sqrt (2 * (1/10) * (1 - 1/10)) * PhiInv (19/20)
      - (3/25 - 1/10) * Real.sqrt 1000 := by
    have h50 : (3/25 - 1/10 : ℝ) = 1/50 := by norm_num
    rw [h50]
    nlinarith
  have harg_hi : (Real.sqrt (2 * (1/10) * (1 - 1/10)) * PhiInv (19/20)
      - (3/25 - 1/10) * Real.sqrt 1000)
      / Real.sqrt ((1/10) * (1 - 1/10) + (3/25) * (1 - 3/25)) < 151/1000 := by
    rw [div_lt_iff hsB0]
    nlinarith
  have harg_lo : (145/1000 : ℝ) < (Real.sqrt (2 * (1/10) * (1 - 1/10)) * PhiInv (19/20)
      - (3/25 - 1/10) * Real.sqrt 1000)
      / Real.sqrt ((1/10) * (1 - 1/10) + (3/25) * (1 - 3/25)) := by
    rw [lt_div_iff hsB0]
    nlinarith
  have hPhi_hi := lt_trans (Phi_strictMono harg_hi) (by exact Phi_151_lt)
  have hPhi_lo := lt_trans Phi_145_gt (Phi_strictMono harg_lo)
  constructor
  · linarith
  · linarith

theorem experiment_size_scenario_bracket :
    (2847 : ℝ) ≤ experiment_size (1/10) (3/25) (1/20) (1/5) ∧
    experiment_size (1/10) (3/25) (1/20) (1/5) < 2879 := by
  rw [experiment_size_eq]
  rw [show (1 - 1/20 : ℝ) = 19/20 by norm_num]
  obtain ⟨hA1, hA2⟩ := sqrt_018_bracket
  obtain ⟨hB1, hB2⟩ := sqrt_01956_bracket
  have hz1 := PhiInv_95_gt
  have hz2 := PhiInv_95_lt
  have hw1 := PhiInv_fifth_gt
  have hw2 := PhiInv_fifth_lt
  have hz0 : (0:ℝ) < PhiInv (19/20) := by linarith
  have hsA0 : (0:ℝ) ≤ Real.sqrt (2 * (1/10) * (1 - 1/10)) := Real.sqrt_nonneg _
  have hsB0 : (0:ℝ) < Real.sqrt ((1/10) * (1 - 1/10) + (3/25) * (1 - 3/25)) := by linarith
  have hza_hi : PhiInv (19/20) * Real.sqrt (2 * (1/10) * (1 - 1/10))
      < (1648/1000) * (424265/1000000) :=
    mul_lt_mul'' hz2 hA2 hz0.le hsA0
  have hza_lo : (1642/1000 : ℝ) * (424264/1000000)
      < PhiInv (19/20) * Real.sqrt (2 * (1/10) * (1 - 1/10)) :=
    mul_lt_mul'' hz1 hA1 (by norm_num) (by norm_num)
  have hwb_hi : -PhiInv (1/5) * Real.sqrt ((1/10) * (1 - 1/10) + (3/25) * (1 - 3/25))
      < (845/1000) * (442267/1000000) := by
    apply mul_lt_mul'' (by linarith) hB2 (by linarith) hsB0.le
  have hwb_lo : (838/1000 : ℝ) * (442266/1000000)
      < -PhiInv (1/5) * Real.sqrt ((1/10) * (1 - 1/10) + (3/25) * (1 - 3/25)) := by
    apply mul_lt_mul'' (by linarith) hB1 (by norm_num) (by norm_num)
  have hE_hi : (PhiInv (19/20) * Real.sqrt (2 * (1/10) * (1 - 1/10))
      - PhiInv (1/5) * Real.sqrt ((1/10) * (1 - 1/10) + (3/25) * (1 - 3/25)))
      / (3/25 - 1/10) < 536453/10000 := by
    rw [show (3/25 - 1/10 : ℝ) = 1/50 by norm_num]
    rw [div_lt_iff (by norm_num : (0:ℝ) < 1/50)]
    nlinarith
  have hE_lo : (533630/10000 : ℝ) < (PhiInv (19/20) * Real.sqrt (2 * (1/10) * (1 - 1/10))
      - PhiInv (1/5) * Real.sqrt ((1/10) * (1 - 1/10) + (3/25) * (1 - 3/25)))
      / (3/25 - 1/10) := by
    rw [show (3/25 - 1/10 : ℝ) = 1/50 by norm_num]
    rw [lt_div_iff (by norm_num : (0:ℝ) < 1/50)]
    nlinarith
  have hQ_hi : ((PhiInv (19/20) * Real.sqrt (2 * (1/10) * (1 - 1/10))
      - PhiInv (1/5) * Real.sqrt ((1/10) * (1 - 1/10) + (3/25) * (1 - 3/25)))
      / (3/25 - 1/10)) ^ 2 < 2878 := by
    nlinarith
  have hQ_lo : (2847 : ℝ) < ((PhiInv (19/20) * Real.sqrt (2 * (1/10) * (1 - 1/10))
      - PhiInv (1/5) * Real.sqrt ((1/10) * (1 - 1/10) + (3/25) * (1 - 3/25)))
      / (3/25 - 1/10)) ^ 2 := by
    nlinarith
  constructor
  · have h := Int.le_ceil (((PhiInv (19/20) * Real.sqrt (2 * (1/10) * (1 - 1/10))
      - PhiInv (1/5) * Real.sqrt ((1/10) * (1 - 1/10) + (3/25) * (1 - 3/25)))
      / (3/25 - 1/10)) ^ 2)
    linarith
  · have h := Int.ceil_lt_add_one (((PhiInv (19/20) * Real.sqrt (2 * (1/10) * (1 - 1/10))
      - PhiInv (1/5) * Real.sqrt ((1/10) * (1 - 1/10) + (3/25) * (1 - 3/25)))
      / (3/25 - 1/10)) ^ 2)
    linarith

/-- C7: the concrete scenario values of the specification hold within the
stated one-percent relative tolerance:
`power(0.10, 0.12, n=1000, alpha=0.05)` is within 1% of 0.44, and
`experiment_size(0.10, 0.12, alpha=0.05, beta=0.20)` is within 1% of 2863
(its exact value is the integer 2863).  Certified by rational Taylor
enclosures of the Gaussian integral. -/
theorem C7_concrete_scenarios :
    |power (1/10) (3/25) 1000 (1/20) true - 44/100| ≤ (1/100) * (44/100) ∧
    |experiment_size (1/10) (3/25) (1/20) (1/5) - 2863| ≤ (1/100) * 2863 := by
  obtain ⟨hp1, hp2⟩ := power_scenario_bracket
  obtain ⟨he1, he2⟩ := experiment_size_scenario_bracket
  constructor
  · rw [abs_le]
    constructor
    · linarith
    · linarith
  · rw [abs_le]
    constructor
    · linarith
    · linarith
